import Mathlib

/-!
# Custom code-based evaluators: a shallow embedding

This file embeds the two scoring evaluators of
`labs/lab03-azure-ai-evaluations/evaluations/custom_evaluators/response_metrics.py`
(`ResponseLengthEvaluator` and `CitationCountEvaluator`) into Lean and
verifies the specified properties.

Modelling conventions:
* Python `int` is `ℤ`; Python `float` scores are modelled exactly as `ℚ`
  (the arithmetic involved — division, `max`, `min`, multiplication by
  decimal constants — is exact on the rationals appearing here).
* Python `round(x, 2)` rounds half to even; `round2` below implements that
  on `ℚ`.
* Python strings are `List Char`; `len` is `List.length`; whitespace and
  digits are taken from the ASCII range (the inputs of interest here are
  ASCII; Python's `str.split` and `\s`/`\d` additionally accept Unicode
  whitespace/digits, which does not affect any property below).
* A Python expression that would raise `ZeroDivisionError` is modelled by
  `Option`: each division site is guarded and yields `none` exactly when
  its divisor is zero.
-/

/-- Banker's rounding of `x` to the nearest integer, as performed by
Python's builtin `round`: ties (fractional part exactly 1/2) go to the
even neighbour. -/
def round2Int (x : ℚ) : ℤ :=
  if x - Int.floor x < 1/2 then Int.floor x
  else if 1/2 < x - Int.floor x then Int.floor x + 1
  else if Int.floor x % 2 = 0 then Int.floor x else Int.floor x + 1

/-- Python's `round(q, 2)`: round to 2 decimal places, ties to even. -/
def round2 (q : ℚ) : ℚ := (round2Int (q * 100) : ℚ) / 100

/-- The whitespace characters recognised by `str.split()` (ASCII range):
space, tab, newline, carriage return, vertical tab, form feed. -/
def pyIsSpace (c : Char) : Bool :=
  c == ' ' || c == '\t' || c == '\n' || c == '\r' || c == '\x0b' || c == '\x0c'

/-- Helper for `wordCount`: scans the characters, carrying a flag that
records whether the previous character was inside a word. -/
def wordCountGo : List Char → Bool → Nat
  | [], _ => 0
  | c :: rest, inWord =>
    if pyIsSpace c then wordCountGo rest false
    else (if inWord then 0 else 1) + wordCountGo rest true

/-- `len(response.split())`: the number of whitespace-delimited tokens,
i.e. the number of maximal runs of non-whitespace characters. -/
def wordCount (r : List Char) : Nat := wordCountGo r false

/-- The dictionary returned by `ResponseLengthEvaluator.__call__`. -/
structure LengthRecord where
  response_length_chars : ℕ
  response_length_words : ℕ
  response_length_within_range : Bool
  response_length_score : ℚ
deriving Repr, DecidableEq

/-- The score branch of `ResponseLengthEvaluator.__call__` (before
rounding), as a function of the configuration and the response length:

    if length < self.min_length:
        score = max(0, (length / self.min_length) * 3)
    elif length > self.max_length:
        score = max(0, 5 - ((length - self.max_length) / self.max_length) * 2)
    else:
        score = 5.0

`none` models the `ZeroDivisionError` raised when the divisor of the
taken branch is zero. -/
def lengthScore (minL maxL l : ℤ) : Option ℚ :=
  if l < minL then
    if minL = 0 then none else some (max 0 ((l : ℚ) / (minL : ℚ) * 3))
  else if maxL < l then
    if maxL = 0 then none else some (max 0 (5 - ((l : ℚ) - (maxL : ℚ)) / (maxL : ℚ) * 2))
  else some 5

/-- `ResponseLengthEvaluator.__call__` for a configuration
`(min_length, max_length)` and a response `r`. -/
def responseLengthCall (minL maxL : ℤ) (r : List Char) : Option LengthRecord :=
  (lengthScore minL maxL r.length).map fun score =>
    { response_length_chars := r.length
      response_length_words := wordCount r
      response_length_within_range :=
        decide (minL ≤ (r.length : ℤ) ∧ (r.length : ℤ) ≤ maxL)
      response_length_score := round2 score }

/-- `ResponseLengthEvaluator.__init__`: stores the two thresholds.
It performs no validation and cannot fail. -/
structure ResponseLengthEvaluatorCfg where
  min_length : ℤ
  max_length : ℤ
deriving Repr, DecidableEq

def mkResponseLengthEvaluator (minL maxL : ℤ) : ResponseLengthEvaluatorCfg :=
  { min_length := minL, max_length := maxL }

/-- Match a literal character sequence at the front of the input,
returning the remainder on success. -/
def stripLit : List Char → List Char → Option (List Char)
  | [], l => some l
  | _ :: _, [] => none
  | p :: ps, c :: cs => if c = p then stripLit ps cs else none

/-- Regex `\s+`: one or more whitespace characters, maximal munch. -/
def spaces1 : List Char → Option (List Char)
  | [] => none
  | c :: cs => if pyIsSpace c then some (cs.dropWhile pyIsSpace) else none

/-- Regex `\d+`: one or more decimal digits, maximal munch. -/
def digits1 : List Char → Option (List Char)
  | [] => none
  | c :: cs => if c.isDigit then some (cs.dropWhile Char.isDigit) else none

/-- Try pattern `Document\s+\d+` at the current position. -/
def matchDocumentAt (l : List Char) : Option (List Char) :=
  (stripLit "Document".toList l).bind fun r1 =>
    (spaces1 r1).bind fun r2 => digits1 r2

/-- Try pattern `\[\d+\]` at the current position. -/
def matchBracketAt (l : List Char) : Option (List Char) :=
  (stripLit "[".toList l).bind fun r1 =>
    (digits1 r1).bind fun r2 => stripLit "]".toList r2

/-- Try pattern `\(Source\s+\d+\)` at the current position. -/
def matchSourceParenAt (l : List Char) : Option (List Char) :=
  (stripLit "(Source".toList l).bind fun r1 =>
    (spaces1 r1).bind fun r2 =>
      (digits1 r2).bind fun r3 => stripLit ")".toList r3

/-- Try pattern `\(Document\s+\d+\)` at the current position. -/
def matchDocumentParenAt (l : List Char) : Option (List Char) :=
  (stripLit "(Document".toList l).bind fun r1 =>
    (spaces1 r1).bind fun r2 =>
      (digits1 r2).bind fun r3 => stripLit ")".toList r3

/-- Scanner loop for `re.findall`: at each position try the pattern; on
success count one match and resume after it, otherwise advance one
character.  The `fuel` argument only serves to make the recursion
structural: every matcher above consumes at least one character on
success, so with initial fuel equal to the input length the fuel is
never exhausted (`countMatchesGo_congr` below). -/
def countMatchesGo (m : List Char → Option (List Char)) : Nat → List Char → Nat
  | _, [] => 0
  | 0, _ :: _ => 0
  | fuel + 1, c :: rest =>
    match m (c :: rest) with
    | some r => 1 + countMatchesGo m fuel r
    | none => countMatchesGo m fuel rest

/-- `len(re.findall(pattern, s))`: the number of non-overlapping,
left-to-right matches of the pattern in `s`. -/
def countMatches (m : List Char → Option (List Char)) (l : List Char) : Nat :=
  countMatchesGo m l.length l

/-- The citation count of `CitationCountEvaluator.__call__`: the four
patterns are matched independently over the whole response and their
match counts summed. -/
def citationCount (r : List Char) : Nat :=
  countMatches matchDocumentAt r + countMatches matchBracketAt r +
    countMatches matchSourceParenAt r + countMatches matchDocumentParenAt r

/-- The dictionary returned by `CitationCountEvaluator.__call__`. -/
structure CitationRecord where
  citation_count : ℕ
  has_sufficient_citations : Bool
  citation_score : ℚ
deriving Repr, DecidableEq

/-- The score branch of `CitationCountEvaluator.__call__` (before
rounding):

    if citation_count == 0:
        score = 0
    elif citation_count < self.min_citations:
        score = (citation_count / self.min_citations) * 3
    else:
        score = min(5, 3 + (citation_count - self.min_citations) * 0.5)

`none` models the `ZeroDivisionError` raised when the divisor of the
taken branch is zero. -/
def citationScore (minC c : ℤ) : Option ℚ :=
  if c = 0 then some 0
  else if c < minC then
    if minC = 0 then none else some ((c : ℚ) / (minC : ℚ) * 3)
  else some (min 5 (3 + ((c : ℚ) - (minC : ℚ)) * (1/2)))

/-- `CitationCountEvaluator.__call__` for a configuration `min_citations`
and a response `r`. -/
def citationCall (minC : ℤ) (r : List Char) : Option CitationRecord :=
  (citationScore minC (citationCount r)).map fun score =>
    { citation_count := citationCount r
      has_sufficient_citations := decide (minC ≤ (citationCount r : ℤ))
      citation_score := round2 score }

/-- `CitationCountEvaluator.__init__`: stores the threshold.
It performs no validation and cannot fail. -/
structure CitationCountEvaluatorCfg where
  min_citations : ℤ
deriving Repr, DecidableEq

def mkCitationCountEvaluator (minC : ℤ) : CitationCountEvaluatorCfg :=
  { min_citations := minC }

/-! ## Basic lemmas about the scanner -/

theorem stripLit_length_le :
    ∀ {p l r : List Char}, stripLit p l = some r → r.length ≤ l.length := by
  intro p
  induction p with
  | nil =>
    intro l r h
    simp only [stripLit, Option.some.injEq] at h
    subst h
    exact le_rfl
  | cons a as ih =>
    intro l r h
    cases l with
    | nil => simp [stripLit] at h
    | cons c cs =>
      simp only [stripLit] at h
      split at h
      · exact le_trans (ih h) (by simp)
      · exact absurd h (by simp)

theorem stripLit_length_lt {p l r : List Char} (hp : p ≠ []) :
    stripLit p l = some r → r.length < l.length := by
  intro h
  cases p with
  | nil => exact absurd rfl hp
  | cons a as =>
    cases l with
    | nil => simp [stripLit] at h
    | cons c cs =>
      simp only [stripLit] at h
      split at h
      · exact lt_of_le_of_lt (stripLit_length_le h) (by simp)
      · exact absurd h (by simp)

theorem spaces1_length_lt {l r : List Char} (h : spaces1 l = some r) :
    r.length < l.length := by
  cases l with
  | nil => simp [spaces1] at h
  | cons c cs =>
    simp only [spaces1] at h
    split at h
    · cases h
      exact lt_of_le_of_lt (List.dropWhile_sublist _).length_le (by simp)
    · exact absurd h (by simp)

theorem digits1_length_lt {l r : List Char} (h : digits1 l = some r) :
    r.length < l.length := by
  cases l with
  | nil => simp [digits1] at h
  | cons c cs =>
    simp only [digits1] at h
    split at h
    · cases h
      exact lt_of_le_of_lt (List.dropWhile_sublist _).length_le (by simp)
    · exact absurd h (by simp)

/-- A matcher `consumes` if every successful match eats at least one
character.  All four citation matchers below do. -/
def Consumes (m : List Char → Option (List Char)) : Prop :=
  ∀ l r, m l = some r → r.length < l.length

theorem matchDocumentAt_consumes : Consumes matchDocumentAt := by
  intro l r h
  simp only [matchDocumentAt, Option.bind_eq_some] at h
  obtain ⟨r1, h1, r2, h2, h3⟩ := h
  have := stripLit_length_lt (by decide) h1
  have := spaces1_length_lt h2
  have := digits1_length_lt h3
  omega

theorem matchBracketAt_consumes : Consumes matchBracketAt := by
  intro l r h
  simp only [matchBracketAt, Option.bind_eq_some] at h
  obtain ⟨r1, h1, r2, h2, h3⟩ := h
  have := stripLit_length_lt (by decide) h1
  have := digits1_length_lt h2
  have := stripLit_length_le h3
  omega

theorem matchSourceParenAt_consumes : Consumes matchSourceParenAt := by
  intro l r h
  simp only [matchSourceParenAt, Option.bind_eq_some] at h
  obtain ⟨r1, h1, r2, h2, r3, h3, h4⟩ := h
  have := stripLit_length_lt (by decide) h1
  have := spaces1_length_lt h2
  have := digits1_length_lt h3
  have := stripLit_length_le h4
  omega

theorem matchDocumentParenAt_consumes : Consumes matchDocumentParenAt := by
  intro l r h
  simp only [matchDocumentParenAt, Option.bind_eq_some] at h
  obtain ⟨r1, h1, r2, h2, r3, h3, h4⟩ := h
  have := stripLit_length_lt (by decide) h1
  have := spaces1_length_lt h2
  have := digits1_length_lt h3
  have := stripLit_length_le h4
  omega

/-- For a consuming matcher, any fuel at least the input length gives the
same count: the fuel in `countMatches` is never exhausted. -/
theorem countMatchesGo_congr {m : List Char → Option (List Char)}
    (hm : Consumes m) :
    ∀ fuel fuel' l, l.length ≤ fuel → l.length ≤ fuel' →
      countMatchesGo m fuel l = countMatchesGo m fuel' l := by
  intro fuel
  induction fuel with
  | zero =>
    intro fuel' l hl _
    have : l = [] := List.length_eq_zero.mp (Nat.le_zero.mp hl)
    subst this
    cases fuel' <;> simp [countMatchesGo]
  | succ fuel ih =>
    intro fuel' l hl hl'
    cases l with
    | nil => cases fuel' <;> simp [countMatchesGo]
    | cons c rest =>
      cases fuel' with
      | zero => simp at hl'
      | succ fuel' =>
        cases hmc : m (c :: rest) with
        | none =>
          simp only [countMatchesGo, hmc]
          simp only [List.length_cons] at hl hl'
          exact ih fuel' rest (by omega) (by omega)
        | some r =>
          have hr := hm _ _ hmc
          simp only [countMatchesGo, hmc]
          simp only [List.length_cons] at hl hl' hr
          rw [ih fuel' r (by omega) (by omega)]

theorem countMatches_cons_of_none {m : List Char → Option (List Char)}
    {c : Char} {l : List Char} (h : m (c :: l) = none) :
    countMatches m (c :: l) = countMatches m l := by
  simp [countMatches, countMatchesGo, h]

theorem countMatches_cons_of_some {m : List Char → Option (List Char)}
    (hm : Consumes m) {c : Char} {l r : List Char} (h : m (c :: l) = some r) :
    countMatches m (c :: l) = 1 + countMatches m r := by
  have hr := hm _ _ h
  simp only [List.length_cons] at hr
  simp only [countMatches, List.length_cons, countMatchesGo, h]
  rw [countMatchesGo_congr hm l.length r.length r (by omega) le_rfl]

theorem countMatches_nil (m : List Char → Option (List Char)) :
    countMatches m [] = 0 := rfl

/-! ## Basic lemmas about rounding -/

theorem round2Int_le {x : ℚ} {m : ℤ} (h : x ≤ (m : ℚ)) : round2Int x ≤ m := by
  have hfm : Int.floor x ≤ m := by
    have h2 := Int.floor_le_floor h
    rwa [Int.floor_intCast] at h2
  have hfx : (Int.floor x : ℚ) ≤ x := Int.floor_le x
  have key : (1/2 : ℚ) ≤ x - Int.floor x → Int.floor x + 1 ≤ m := by
    intro hhalf
    rcases lt_or_eq_of_le hfm with hlt | heq
    · omega
    · exfalso
      rw [heq] at hhalf
      have : (m : ℚ) + 1/2 ≤ x := by linarith
      linarith
  unfold round2Int
  split_ifs with h1 h2 h3
  · exact hfm
  · exact key (le_of_lt h2)
  · exact hfm
  · exact key (by linarith)

theorem le_round2Int {x : ℚ} {m : ℤ} (h : (m : ℚ) ≤ x) : m ≤ round2Int x := by
  have hfm : m ≤ Int.floor x := Int.le_floor.mpr h
  unfold round2Int
  split_ifs <;> omega

theorem round2Int_mono {x y : ℚ} (h : x ≤ y) : round2Int x ≤ round2Int y := by
  have hf : Int.floor x ≤ Int.floor y := Int.floor_le_floor h
  rcases lt_or_eq_of_le hf with hlt | heq
  · unfold round2Int
    split_ifs <;> omega
  · unfold round2Int
    rw [← heq]
    split_ifs <;> first
      | omega
      | (exfalso; rw [← heq] at *; linarith)

theorem round2_le_intCast {q : ℚ} {m : ℤ} (h : q ≤ (m : ℚ)) :
    round2 q ≤ (m : ℚ) := by
  have h100 : q * 100 ≤ ((100 * m : ℤ) : ℚ) := by push_cast; linarith
  have hle := round2Int_le h100
  have : (round2Int (q * 100) : ℚ) ≤ ((100 * m : ℤ) : ℚ) := by exact_mod_cast hle
  unfold round2
  push_cast at this ⊢
  linarith

theorem intCast_le_round2 {q : ℚ} {m : ℤ} (h : (m : ℚ) ≤ q) :
    (m : ℚ) ≤ round2 q := by
  have h100 : ((100 * m : ℤ) : ℚ) ≤ q * 100 := by push_cast; linarith
  have hle := le_round2Int h100
  have : ((100 * m : ℤ) : ℚ) ≤ (round2Int (q * 100) : ℚ) := by exact_mod_cast hle
  unfold round2
  push_cast at this ⊢
  linarith

theorem round2_mono {a b : ℚ} (h : a ≤ b) : round2 a ≤ round2 b := by
  have h2 : round2Int (a * 100) ≤ round2Int (b * 100) :=
    round2Int_mono (by linarith)
  have : (round2Int (a * 100) : ℚ) ≤ (round2Int (b * 100) : ℚ) := by
    exact_mod_cast h2
  unfold round2
  linarith

/-- A rational with at most two decimal places is unchanged by rounding. -/
theorem round2_eq_self {q : ℚ} {n : ℤ} (h : q * 100 = (n : ℚ)) :
    round2 q = q := by
  unfold round2 round2Int
  rw [h, Int.floor_intCast, if_pos (by norm_num : (n : ℚ) - (n : ℤ) < 1/2)]
  linarith

/-! ## Claims -/

/-- C1: for `0 < min_length ≤ max_length` and any response,
`ResponseLengthEvaluator.__call__` returns a record whose score is,
rounded to 2 decimal places, `3·length/min_length` when
`length < min_length` (never negative, capped at 3),
`max(0, 5 − 2·(length − max_length)/max_length)` when
`length > max_length`, and exactly 5.0 otherwise; the record also
carries the character count, the whitespace-delimited word count, and
the within-range flag `min_length ≤ length ≤ max_length`. -/
theorem response_length_call_correct (minL maxL : ℤ) (h1 : 0 < minL)
    (h2 : minL ≤ maxL) (r : List Char) :
    ∃ rec : LengthRecord, responseLengthCall minL maxL r = some rec ∧
      rec.response_length_chars = r.length ∧
      rec.response_length_words = wordCount r ∧
      (rec.response_length_within_range = true ↔
        minL ≤ (r.length : ℤ) ∧ (r.length : ℤ) ≤ maxL) ∧
      ((r.length : ℤ) < minL →
        rec.response_length_score = round2 (3 * (r.length : ℚ) / (minL : ℚ)) ∧
        0 ≤ rec.response_length_score ∧ rec.response_length_score ≤ 3) ∧
      (maxL < (r.length : ℤ) →
        rec.response_length_score =
          round2 (max 0 (5 - 2 * ((r.length : ℚ) - (maxL : ℚ)) / (maxL : ℚ)))) ∧
      (minL ≤ (r.length : ℤ) → (r.length : ℤ) ≤ maxL →
        rec.response_length_score = 5) := by
  have hm0 : minL ≠ 0 := by omega
  have hmq : (0 : ℚ) < (minL : ℚ) := by exact_mod_cast h1
  by_cases hlt : (r.length : ℤ) < minL
  · have hs : lengthScore minL maxL (r.length : ℤ) =
        some (max 0 ((r.length : ℚ) / (minL : ℚ) * 3)) := by
      unfold lengthScore
      rw [if_pos hlt, if_neg hm0]
      norm_cast
    have heq : responseLengthCall minL maxL r = some
        { response_length_chars := r.length
          response_length_words := wordCount r
          response_length_within_range :=
            decide (minL ≤ (r.length : ℤ) ∧ (r.length : ℤ) ≤ maxL)
          response_length_score :=
            round2 (max 0 ((r.length : ℚ) / (minL : ℚ) * 3)) } := by
      unfold responseLengthCall
      rw [hs]
      rfl
    refine ⟨_, heq, rfl, rfl, by simp, ?_, ?_, ?_⟩
    · intro _
      have hnn : (0 : ℚ) ≤ (r.length : ℚ) / (minL : ℚ) * 3 :=
        mul_nonneg (div_nonneg (by positivity) hmq.le) (by norm_num)
      have hform : max 0 ((r.length : ℚ) / (minL : ℚ) * 3) =
          3 * (r.length : ℚ) / (minL : ℚ) := by
        rw [max_eq_right hnn]; ring
      have hlim : (r.length : ℚ) / (minL : ℚ) * 3 ≤ 3 := by
        have hlq : (r.length : ℚ) < (minL : ℚ) := by exact_mod_cast hlt
        have := (div_lt_one hmq).mpr hlq
        linarith
      refine ⟨by rw [hform], ?_, ?_⟩
      · have h0 := intCast_le_round2 (q := max 0 ((r.length : ℚ) / (minL : ℚ) * 3))
          (m := 0) (by simp)
        simpa using h0
      · have h3 := round2_le_intCast (q := max 0 ((r.length : ℚ) / (minL : ℚ) * 3))
          (m := 3) (by push_cast; exact max_le (by norm_num) hlim)
        have hc3 : ((3 : ℤ) : ℚ) = 3 := by norm_num
        rwa [hc3] at h3
    · intro hgt; omega
    · intro hge _; omega
  · by_cases hgt : maxL < (r.length : ℤ)
    · have hM0 : maxL ≠ 0 := by omega
      have hs : lengthScore minL maxL (r.length : ℤ) =
          some (max 0 (5 - ((r.length : ℚ) - (maxL : ℚ)) / (maxL : ℚ) * 2)) := by
        unfold lengthScore
        rw [if_neg hlt, if_pos hgt, if_neg hM0]
        norm_cast
      have heq : responseLengthCall minL maxL r = some
          { response_length_chars := r.length
            response_length_words := wordCount r
            response_length_within_range :=
              decide (minL ≤ (r.length : ℤ) ∧ (r.length : ℤ) ≤ maxL)
            response_length_score :=
              round2 (max 0 (5 - ((r.length : ℚ) - (maxL : ℚ)) / (maxL : ℚ) * 2)) } := by
        unfold responseLengthCall
        rw [hs]
        rfl
      refine ⟨_, heq, rfl, rfl, by simp, ?_, ?_, ?_⟩
      · intro h'; omega
      · intro _
        have hform : max 0 (5 - ((r.length : ℚ) - (maxL : ℚ)) / (maxL : ℚ) * 2) =
            max 0 (5 - 2 * ((r.length : ℚ) - (maxL : ℚ)) / (maxL : ℚ)) := by
          congr 1
          ring
        simp only [hform]
      · intro _ hle; omega
    · have h5 : round2 (5 : ℚ) = 5 := round2_eq_self (n := 500) (by norm_num)
      have hs : lengthScore minL maxL (r.length : ℤ) = some 5 := by
        unfold lengthScore
        rw [if_neg hlt, if_neg hgt]
      have heq : responseLengthCall minL maxL r = some
          { response_length_chars := r.length
            response_length_words := wordCount r
            response_length_within_range :=
              decide (minL ≤ (r.length : ℤ) ∧ (r.length : ℤ) ≤ maxL)
            response_length_score := round2 5 } := by
        unfold responseLengthCall
        rw [hs]
        rfl
      refine ⟨_, heq, rfl, rfl, by simp, ?_, ?_, ?_⟩
      · intro h'; omega
      · intro h'; omega
      · intro _ _; exact h5

/-- Witness for C1 at the spec's own example: `min_length = 50`,
`max_length = 1000`, a 25-character response. -/
theorem response_length_call_correct_witness :
    ∃ rec : LengthRecord,
      responseLengthCall 50 1000 (List.replicate 25 'a') = some rec ∧
      rec.response_length_score =
        round2 (3 * ((List.replicate 25 'a').length : ℚ) / (50 : ℚ)) := by
  obtain ⟨rec, ha, _, _, _, hshort, _, _⟩ :=
    response_length_call_correct 50 1000 (by decide) (by decide)
      (List.replicate 25 'a')
  exact ⟨rec, ha, (hshort (by decide)).1⟩

/-- C2: for integer `min_citations ≥ 1` and any response,
`CitationCountEvaluator.__call__` returns a record whose score is,
rounded to 2 decimal places, 0 when the citation count is 0,
`3·count/min_citations` when `0 < count < min_citations`, and
`min(5, 3 + 0.5·(count − min_citations))` when `count ≥ min_citations`;
`has_sufficient_citations` is `count ≥ min_citations`. -/
theorem citation_call_correct (minC : ℤ) (h1 : 1 ≤ minC) (r : List Char) :
    ∃ rec : CitationRecord, citationCall minC r = some rec ∧
      rec.citation_count = citationCount r ∧
      (rec.has_sufficient_citations = true ↔ minC ≤ (citationCount r : ℤ)) ∧
      (citationCount r = 0 → rec.citation_score = 0) ∧
      (0 < citationCount r → (citationCount r : ℤ) < minC →
        rec.citation_score = round2 (3 * (citationCount r : ℚ) / (minC : ℚ))) ∧
      (minC ≤ (citationCount r : ℤ) →
        rec.citation_score =
          round2 (min 5 (3 + (1/2) * ((citationCount r : ℚ) - (minC : ℚ))))) := by
  by_cases hc0 : (citationCount r : ℤ) = 0
  · have hs : citationScore minC (citationCount r : ℤ) = some 0 := by
      unfold citationScore
      rw [if_pos hc0]
    have heq : citationCall minC r = some
        { citation_count := citationCount r
          has_sufficient_citations := decide (minC ≤ (citationCount r : ℤ))
          citation_score := round2 0 } := by
      unfold citationCall
      rw [hs]
      rfl
    have h0 : round2 (0 : ℚ) = 0 := round2_eq_self (n := 0) (by norm_num)
    refine ⟨_, heq, rfl, by simp, fun _ => h0, ?_, ?_⟩
    · intro hpos _
      exact absurd hpos (by omega)
    · intro hge
      exact absurd hge (by omega)
  · by_cases hlt : (citationCount r : ℤ) < minC
    · have hm0 : minC ≠ 0 := by omega
      have hs : citationScore minC (citationCount r : ℤ) =
          some ((citationCount r : ℚ) / (minC : ℚ) * 3) := by
        unfold citationScore
        rw [if_neg hc0, if_pos hlt, if_neg hm0]
        norm_cast
      have heq : citationCall minC r = some
          { citation_count := citationCount r
            has_sufficient_citations := decide (minC ≤ (citationCount r : ℤ))
            citation_score := round2 ((citationCount r : ℚ) / (minC : ℚ) * 3) } := by
        unfold citationCall
        rw [hs]
        rfl
      refine ⟨_, heq, rfl, by simp, ?_, ?_, ?_⟩
      · intro h0
        exact absurd h0 (by omega)
      · intro _ _
        have hform : (citationCount r : ℚ) / (minC : ℚ) * 3 =
            3 * (citationCount r : ℚ) / (minC : ℚ) := by ring
        rw [hform]
      · intro hge
        exact absurd hge (by omega)
    · have hs : citationScore minC (citationCount r : ℤ) =
          some (min 5 (3 + ((citationCount r : ℚ) - (minC : ℚ)) * (1/2))) := by
        unfold citationScore
        rw [if_neg hc0, if_neg hlt]
        norm_cast
      have heq : citationCall minC r = some
          { citation_count := citationCount r
            has_sufficient_citations := decide (minC ≤ (citationCount r : ℤ))
            citation_score :=
              round2 (min 5 (3 + ((citationCount r : ℚ) - (minC : ℚ)) * (1/2))) } := by
        unfold citationCall
        rw [hs]
        rfl
      refine ⟨_, heq, rfl, by simp, ?_, ?_, ?_⟩
      · intro h0
        exact absurd h0 (by omega)
      · intro _ hlt'
        exact absurd hlt' hlt
      · intro _
        have hform : min (5 : ℚ) (3 + ((citationCount r : ℚ) - (minC : ℚ)) * (1/2)) =
            min 5 (3 + (1/2) * ((citationCount r : ℚ) - (minC : ℚ))) := by
          congr 1
          ring
        rw [hform]

/-- Witness for C2 at `min_citations = 1` on the spec's example input. -/
theorem citation_call_correct_witness :
    ∃ rec : CitationRecord,
      citationCall 1 "See Document 1 and [2] for details (Source 3)".toList =
        some rec ∧
      rec.citation_score = round2 (min 5 (3 + (1/2) *
        ((citationCount "See Document 1 and [2] for details (Source 3)".toList : ℚ)
          - (1 : ℚ)))) := by
  obtain ⟨rec, ha, _, _, _, _, hge⟩ :=
    citation_call_correct 1 (by decide)
      "See Document 1 and [2] for details (Source 3)".toList
  exact ⟨rec, ha, hge (by decide)⟩

/-- C3: the citation count is the sum, over the four patterns
`Document <N>`, `[<N>]`, `(Source <N>)`, `(Document <N>)`, of the number
of non-overlapping occurrences found independently; on the input
`"See Document 1 and [2] for details (Source 3)"` with
`min_citations = 1` this gives `citation_count = 3` and
`citation_score = 4.0`. -/
theorem citation_count_pattern_sum :
    (∀ r : List Char, citationCount r =
      countMatches matchDocumentAt r + countMatches matchBracketAt r +
        countMatches matchSourceParenAt r + countMatches matchDocumentParenAt r) ∧
    citationCount "See Document 1 and [2] for details (Source 3)".toList = 3 ∧
    (∃ rec : CitationRecord,
      citationCall 1 "See Document 1 and [2] for details (Source 3)".toList =
        some rec ∧
      rec.citation_count = 3 ∧ rec.citation_score = 4) := by
  have hc : citationCount "See Document 1 and [2] for details (Source 3)".toList
      = 3 := by decide
  refine ⟨fun r => rfl, hc, ?_⟩
  have hs : citationScore 1
      ((citationCount "See Document 1 and [2] for details (Source 3)".toList : ℕ) : ℤ)
      = some 4 := by
    rw [hc]
    unfold citationScore
    norm_num
  have h4 : round2 (4 : ℚ) = 4 := round2_eq_self (n := 400) (by norm_num)
  have heq : citationCall 1 "See Document 1 and [2] for details (Source 3)".toList
      = some
      { citation_count :=
          citationCount "See Document 1 and [2] for details (Source 3)".toList
        has_sufficient_citations := decide ((1 : ℤ) ≤
          (citationCount "See Document 1 and [2] for details (Source 3)".toList : ℤ))
        citation_score := round2 4 } := by
    unfold citationCall
    rw [hs]
    rfl
  exact ⟨_, heq, hc, h4⟩

theorem round2_nonneg_of {v : ℚ} (h : 0 ≤ v) : 0 ≤ round2 v := by
  have h0 := intCast_le_round2 (q := v) (m := 0) (by exact_mod_cast h)
  simpa using h0

theorem round2_le_five_of {v : ℚ} (h : v ≤ 5) : round2 v ≤ 5 := by
  have h5 := round2_le_intCast (q := v) (m := 5) (by exact_mod_cast h)
  have hc : ((5 : ℤ) : ℚ) = 5 := by norm_num
  rwa [hc] at h5

/-- For a valid configuration the raw (pre-rounding) length score exists
and lies in `[0, 5]`. -/
theorem lengthScore_bounds {minL maxL l : ℤ} (h1 : 0 < minL) (h2 : minL ≤ maxL) :
    ∃ s, lengthScore minL maxL l = some s ∧ 0 ≤ s ∧ s ≤ 5 := by
  have hmq : (0 : ℚ) < (minL : ℚ) := by exact_mod_cast h1
  by_cases hlt : l < minL
  · have hs : lengthScore minL maxL l = some (max 0 ((l : ℚ) / (minL : ℚ) * 3)) := by
      unfold lengthScore
      rw [if_pos hlt, if_neg (by omega : ¬minL = 0)]
    refine ⟨_, hs, le_max_left 0 _, max_le (by norm_num) ?_⟩
    have hlq : (l : ℚ) < (minL : ℚ) := by exact_mod_cast hlt
    have hdiv := (div_lt_one hmq).mpr hlq
    linarith
  · by_cases hgt : maxL < l
    · have hMq : (0 : ℚ) < (maxL : ℚ) := by exact_mod_cast (by omega : (0 : ℤ) < maxL)
      have hs : lengthScore minL maxL l =
          some (max 0 (5 - ((l : ℚ) - (maxL : ℚ)) / (maxL : ℚ) * 2)) := by
        unfold lengthScore
        rw [if_neg hlt, if_pos hgt, if_neg (by omega : ¬maxL = 0)]
      refine ⟨_, hs, le_max_left 0 _, max_le (by norm_num) ?_⟩
      have hsub : (0 : ℚ) ≤ (l : ℚ) - (maxL : ℚ) := by
        have hml : (maxL : ℚ) ≤ (l : ℚ) := by exact_mod_cast hgt.le
        linarith
      have hx := mul_nonneg (div_nonneg hsub hMq.le) (by norm_num : (0:ℚ) ≤ 2)
      linarith
    · have hs : lengthScore minL maxL l = some 5 := by
        unfold lengthScore
        rw [if_neg hlt, if_neg hgt]
      exact ⟨5, hs, by norm_num, by norm_num⟩

/-- For a valid configuration the raw (pre-rounding) citation score
exists and lies in `[0, 5]`. -/
theorem citationScore_bounds {minC c : ℤ} (h3 : 1 ≤ minC) (hc : 0 ≤ c) :
    ∃ s, citationScore minC c = some s ∧ 0 ≤ s ∧ s ≤ 5 := by
  by_cases hc0 : c = 0
  · have hs : citationScore minC c = some 0 := by
      unfold citationScore
      rw [if_pos hc0]
    exact ⟨0, hs, le_rfl, by norm_num⟩
  · by_cases hlt : c < minC
    · have hmq : (0 : ℚ) < (minC : ℚ) := by exact_mod_cast (by omega : (0 : ℤ) < minC)
      have hs : citationScore minC c = some ((c : ℚ) / (minC : ℚ) * 3) := by
        unfold citationScore
        rw [if_neg hc0, if_pos hlt, if_neg (by omega : ¬minC = 0)]
      refine ⟨_, hs, ?_, ?_⟩
      · exact mul_nonneg (div_nonneg (by exact_mod_cast hc) hmq.le) (by norm_num)
      · have hlq : (c : ℚ) < (minC : ℚ) := by exact_mod_cast hlt
        have hdiv := (div_lt_one hmq).mpr hlq
        linarith
    · have hs : citationScore minC c =
          some (min 5 (3 + ((c : ℚ) - (minC : ℚ)) * (1/2))) := by
        unfold citationScore
        rw [if_neg hc0, if_neg hlt]
      refine ⟨_, hs, ?_, min_le_left _ _⟩
      have hge : (minC : ℚ) ≤ (c : ℚ) := by exact_mod_cast not_lt.mp hlt
      exact le_min (by norm_num) (by linarith)

/-- C4: for every valid configuration (`min_length > 0`,
`max_length ≥ min_length`, `min_citations ≥ 1`) and every response, both
returned scores lie in `[0, 5]`. -/
theorem scores_within_bounds (minL maxL minC : ℤ) (h1 : 0 < minL)
    (h2 : minL ≤ maxL) (h3 : 1 ≤ minC) (r : List Char) :
    (∃ rec : LengthRecord, responseLengthCall minL maxL r = some rec ∧
      0 ≤ rec.response_length_score ∧ rec.response_length_score ≤ 5) ∧
    (∃ rec : CitationRecord, citationCall minC r = some rec ∧
      0 ≤ rec.citation_score ∧ rec.citation_score ≤ 5) := by
  obtain ⟨s, hs, hs0, hs5⟩ := lengthScore_bounds (l := (r.length : ℤ)) h1 h2
  obtain ⟨t, ht, ht0, ht5⟩ :=
    citationScore_bounds (c := ((citationCount r : ℕ) : ℤ)) h3 (Int.natCast_nonneg _)
  constructor
  · exact ⟨_, by unfold responseLengthCall; rw [hs]; rfl,
      round2_nonneg_of hs0, round2_le_five_of hs5⟩
  · exact ⟨_, by unfold citationCall; rw [ht]; rfl,
      round2_nonneg_of ht0, round2_le_five_of ht5⟩

/-- Witness for C4 at configuration `(50, 1000, 1)` on the empty string. -/
theorem scores_within_bounds_witness :
    ∃ rec : LengthRecord, responseLengthCall 50 1000 [] = some rec ∧
      0 ≤ rec.response_length_score ∧ rec.response_length_score ≤ 5 :=
  (scores_within_bounds 50 1000 1 (by decide) (by decide) (by decide) []).1

/-- `CitationCountEvaluator.__call__` never hits its division: the
dividing branch needs `0 < count < min_citations`, forcing
`min_citations ≥ 2`. -/
theorem citationCall_isSome (minC : ℤ) (r : List Char) :
    (citationCall minC r).isSome = true := by
  have hc : (0 : ℤ) ≤ ((citationCount r : ℕ) : ℤ) := Int.natCast_nonneg _
  unfold citationCall citationScore
  by_cases hc0 : ((citationCount r : ℕ) : ℤ) = 0
  · rw [if_pos hc0]
    rfl
  · by_cases hlt : ((citationCount r : ℕ) : ℤ) < minC
    · rw [if_neg hc0, if_pos hlt, if_neg (by omega : ¬minC = 0)]
      rfl
    · rw [if_neg hc0, if_neg hlt]
      rfl

/-- C5 counterexample: the constructors perform no validation — a
non-positive `min_length` or `min_citations` is stored unchanged and no
`InvalidConfiguration` error exists (the embedded constructors are total
functions into the configuration types) — and scoring is not error-free:
configuration `(0, 0)` makes `ResponseLengthEvaluator.__call__` divide
by zero on the one-character response `"a"`. -/
theorem no_construction_validation :
    mkResponseLengthEvaluator 0 1000 =
      { min_length := 0, max_length := 1000 } ∧
    mkCitationCountEvaluator 0 = { min_citations := 0 } ∧
    responseLengthCall 0 0 ['a'] = none :=
  ⟨rfl, rfl, rfl⟩

/-- C5 (amended): construction never fails and performs no validation
(both constructors just store their arguments, for every integer
configuration including non-positive ones); scoring is where the only
error path lives: `ResponseLengthEvaluator.__call__` can divide by zero
(e.g. configuration `(0, 0)` on response `"a"`), while
`CitationCountEvaluator.__call__` never raises. -/
theorem constructors_never_fail_but_scoring_can :
    (∀ a b : ℤ, mkResponseLengthEvaluator a b =
      { min_length := a, max_length := b }) ∧
    (∀ a : ℤ, mkCitationCountEvaluator a = { min_citations := a }) ∧
    responseLengthCall 0 0 ['a'] = none ∧
    (∀ (a : ℤ) (r : List Char), (citationCall a r).isSome = true) :=
  ⟨fun _ _ => rfl, fun _ => rfl, rfl, fun a r => citationCall_isSome a r⟩

/-- C7 counterexample: with `min_length = 0` (a configuration the claim
covers) the empty string falls within range and scores 5.0, not the
claimed 0.0. -/
theorem empty_string_zero_min_scores_five :
    (responseLengthCall 0 1000 []).map LengthRecord.response_length_score =
      some 5 ∧ (5 : ℚ) ≠ 0 := by
  constructor
  · have h5 : round2 (5 : ℚ) = 5 := round2_eq_self (n := 500) (by norm_num)
    rw [show (responseLengthCall 0 1000 []).map LengthRecord.response_length_score
        = some (round2 5) from rfl, h5]
  · norm_num

/-- C7 (amended): for `0 ≤ min_length ≤ max_length` the empty string
yields `response_length_chars = 0` and
`response_length_within_range = (min_length == 0)`; its score is 0.0
when `min_length > 0`, and 5.0 when `min_length = 0` (the empty string
is then within range). -/
theorem empty_string_eval (minL maxL : ℤ) (h0 : 0 ≤ minL) (h2 : minL ≤ maxL) :
    ∃ rec : LengthRecord, responseLengthCall minL maxL [] = some rec ∧
      rec.response_length_chars = 0 ∧
      (rec.response_length_within_range = true ↔ minL = 0) ∧
      rec.response_length_score = (if 0 < minL then 0 else 5) := by
  by_cases hm : 0 < minL
  · have hs : lengthScore minL maxL 0 = some 0 := by
      unfold lengthScore
      rw [if_pos (by omega : (0 : ℤ) < minL), if_neg (by omega : ¬minL = 0)]
      norm_num
    have h0r : round2 (0 : ℚ) = 0 := round2_eq_self (n := 0) (by norm_num)
    refine ⟨⟨0, wordCount [],
      decide (minL ≤ (0 : ℤ) ∧ (0 : ℤ) ≤ maxL), round2 0⟩, ?_, rfl, ?_, ?_⟩
    · unfold responseLengthCall
      simp only [List.length_nil, Nat.cast_zero]
      rw [hs]
      rfl
    · constructor
      · intro h'
        simp only [decide_eq_true_eq] at h'
        omega
      · intro h'
        omega
    · rw [if_pos hm]
      exact h0r
  · have h5 : round2 (5 : ℚ) = 5 := round2_eq_self (n := 500) (by norm_num)
    have hs : lengthScore minL maxL 0 = some 5 := by
      unfold lengthScore
      rw [if_neg (by omega : ¬(0 : ℤ) < minL), if_neg (by omega : ¬maxL < 0)]
    refine ⟨⟨0, wordCount [],
      decide (minL ≤ (0 : ℤ) ∧ (0 : ℤ) ≤ maxL), round2 5⟩, ?_, rfl, ?_, ?_⟩
    · unfold responseLengthCall
      simp only [List.length_nil, Nat.cast_zero]
      rw [hs]
      rfl
    · constructor
      · intro _
        omega
      · intro _
        simp only [decide_eq_true_eq]
        omega
    · rw [if_neg hm]
      exact h5

/-- Witness for C7 (amended) at `min_length = 50`, `max_length = 1000`. -/
theorem empty_string_eval_witness :
    ∃ rec : LengthRecord, responseLengthCall 50 1000 [] = some rec ∧
      rec.response_length_chars = 0 ∧
      (rec.response_length_within_range = true ↔ (50 : ℤ) = 0) ∧
      rec.response_length_score = (if (0 : ℤ) < 50 then 0 else 5) :=
  empty_string_eval 50 1000 (by decide) (by decide)

/-- C9: `ResponseLengthEvaluator.__call__` is total whenever
`max_length ≠ 0` (for every integer `min_length`, including zero and
negative values: the division by `min_length` is only reachable when
`length < min_length`, which forces `min_length ≥ 1`); an error can
only occur when `max_length = 0` and the response is non-empty, and this
case is reachable since construction performs no check — e.g. the
configuration `(0, 0)` on `"a"` divides by zero. -/
theorem response_length_call_totality :
    (∀ (minL maxL : ℤ) (r : List Char), maxL ≠ 0 →
      (responseLengthCall minL maxL r).isSome = true) ∧
    (∀ (minL maxL : ℤ) (r : List Char), responseLengthCall minL maxL r = none →
      maxL = 0 ∧ r ≠ []) ∧
    responseLengthCall 0 0 ['a'] = none := by
  refine ⟨?_, ?_, rfl⟩
  · intro minL maxL r hM
    have h0 : (0 : ℤ) ≤ (r.length : ℤ) := Int.natCast_nonneg _
    unfold responseLengthCall lengthScore
    by_cases hlt : (r.length : ℤ) < minL
    · rw [if_pos hlt, if_neg (by omega : ¬minL = 0)]
      rfl
    · by_cases hgt : maxL < (r.length : ℤ)
      · rw [if_neg hlt, if_pos hgt, if_neg hM]
        rfl
      · rw [if_neg hlt, if_neg hgt]
        rfl
  · intro minL maxL r h
    have h0 : (0 : ℤ) ≤ (r.length : ℤ) := Int.natCast_nonneg _
    unfold responseLengthCall at h
    rw [Option.map_eq_none'] at h
    unfold lengthScore at h
    by_cases hlt : (r.length : ℤ) < minL
    · by_cases hm : minL = 0
      · exfalso
        omega
      · rw [if_pos hlt, if_neg hm] at h
        exact absurd h (by simp)
    · by_cases hgt : maxL < (r.length : ℤ)
      · by_cases hM : maxL = 0
        · refine ⟨hM, fun hr => ?_⟩
          subst hr
          simp only [List.length_nil, Nat.cast_zero] at hgt
          omega
        · rw [if_neg hlt, if_pos hgt, if_neg hM] at h
          exact absurd h (by simp)
      · rw [if_neg hlt, if_neg hgt] at h
        exact absurd h (by simp)

/-- Witness for C9 at `min_length = 0`, `max_length = 5`, response `"a"`. -/
theorem response_length_call_totality_witness :
    (responseLengthCall 0 5 ['a']).isSome = true :=
  response_length_call_totality.1 0 5 ['a'] (by decide)

/-- C10: `CitationCountEvaluator.__call__` is total for every integer
`min_citations` (including zero and negative values) and every response:
the dividing branch needs `0 < citation_count < min_citations`, which
forces `min_citations ≥ 2`, so the division by zero is unreachable even
though the constructor performs no validation. -/
theorem citation_call_total (minC : ℤ) (r : List Char) :
    (citationCall minC r).isSome = true ∧
    (0 < (citationCount r : ℤ) → (citationCount r : ℤ) < minC → 2 ≤ minC) :=
  ⟨citationCall_isSome minC r, by omega⟩

/-- Witness for C10 at `min_citations = 5` on `"[1]"` (one citation). -/
theorem citation_call_total_witness :
    (citationCall 5 "[1]".toList).isSome = true ∧ (2 : ℤ) ≤ 5 :=
  ⟨(citation_call_total 5 "[1]".toList).1,
    (citation_call_total 5 "[1]".toList).2 (by decide) (by decide)⟩

/-- C6: for a fixed configuration `0 < min_length ≤ max_length`, the
rounded length score, as a function of the response length, is
non-decreasing on `[0, min_length]`, constantly 5.0 on
`[min_length, max_length]`, and non-increasing beyond `max_length`. -/
theorem response_length_score_monotone (minL maxL j k : ℤ) (h1 : 0 < minL)
    (h2 : minL ≤ maxL) :
    (0 ≤ j → j ≤ k → k ≤ minL →
      ∃ s t, lengthScore minL maxL j = some s ∧
        lengthScore minL maxL k = some t ∧ round2 s ≤ round2 t) ∧
    (minL ≤ j → j ≤ maxL →
      lengthScore minL maxL j = some 5 ∧ round2 (5 : ℚ) = 5) ∧
    (maxL < j → j ≤ k →
      ∃ s t, lengthScore minL maxL j = some s ∧
        lengthScore minL maxL k = some t ∧ round2 t ≤ round2 s) := by
  have hmq : (0 : ℚ) < (minL : ℚ) := by exact_mod_cast h1
  refine ⟨?_, ?_, ?_⟩
  · intro hj0 hjk hkm
    by_cases hk : k < minL
    · have hj : j < minL := by omega
      have hsj : lengthScore minL maxL j = some (max 0 ((j : ℚ) / (minL : ℚ) * 3)) := by
        unfold lengthScore
        rw [if_pos hj, if_neg (by omega : ¬minL = 0)]
      have hsk : lengthScore minL maxL k = some (max 0 ((k : ℚ) / (minL : ℚ) * 3)) := by
        unfold lengthScore
        rw [if_pos hk, if_neg (by omega : ¬minL = 0)]
      refine ⟨_, _, hsj, hsk, round2_mono (max_le_max le_rfl ?_)⟩
      have hq : (j : ℚ) ≤ (k : ℚ) := by exact_mod_cast hjk
      gcongr
    · have hk' : k = minL := by omega
      have hsk : lengthScore minL maxL k = some 5 := by
        unfold lengthScore
        rw [if_neg hk, if_neg (by omega : ¬maxL < k)]
      by_cases hj : j < minL
      · have hsj : lengthScore minL maxL j =
            some (max 0 ((j : ℚ) / (minL : ℚ) * 3)) := by
          unfold lengthScore
          rw [if_pos hj, if_neg (by omega : ¬minL = 0)]
        refine ⟨_, _, hsj, hsk, round2_mono (max_le (by norm_num) ?_)⟩
        have hjq : (j : ℚ) < (minL : ℚ) := by exact_mod_cast hj
        have hdiv := (div_lt_one hmq).mpr hjq
        linarith
      · have hsj : lengthScore minL maxL j = some 5 := by
          unfold lengthScore
          rw [if_neg hj, if_neg (by omega : ¬maxL < j)]
        exact ⟨_, _, hsj, hsk, le_rfl⟩
  · intro hge hle
    constructor
    · unfold lengthScore
      rw [if_neg (by omega : ¬j < minL), if_neg (by omega : ¬maxL < j)]
    · exact round2_eq_self (n := 500) (by norm_num)
  · intro hj hjk
    have hk : maxL < k := by omega
    have hMq : (0 : ℚ) < (maxL : ℚ) := by exact_mod_cast (by omega : (0 : ℤ) < maxL)
    have hsj : lengthScore minL maxL j =
        some (max 0 (5 - ((j : ℚ) - (maxL : ℚ)) / (maxL : ℚ) * 2)) := by
      unfold lengthScore
      rw [if_neg (by omega : ¬j < minL), if_pos hj, if_neg (by omega : ¬maxL = 0)]
    have hsk : lengthScore minL maxL k =
        some (max 0 (5 - ((k : ℚ) - (maxL : ℚ)) / (maxL : ℚ) * 2)) := by
      unfold lengthScore
      rw [if_neg (by omega : ¬k < minL), if_pos hk, if_neg (by omega : ¬maxL = 0)]
    refine ⟨_, _, hsj, hsk, round2_mono (max_le_max le_rfl ?_)⟩
    have hq : (j : ℚ) ≤ (k : ℚ) := by exact_mod_cast hjk
    have hsub : ((j : ℚ) - (maxL : ℚ)) / (maxL : ℚ) * 2 ≤
        ((k : ℚ) - (maxL : ℚ)) / (maxL : ℚ) * 2 := by gcongr
    linarith

/-- Witness for C6: with configuration `(50, 1000)`, lengths 25 and 40
give non-decreasing rounded scores. -/
theorem response_length_score_monotone_witness :
    ∃ s t, lengthScore 50 1000 25 = some s ∧ lengthScore 50 1000 40 = some t ∧
      round2 s ≤ round2 t :=
  (response_length_score_monotone 50 1000 25 40 (by decide) (by decide)).1
    (by decide) (by decide) (by decide)

/-! ## Character-class facts used for the pattern-overlap analysis -/

theorem dropWhile_append_of_all {p : Char → Bool} {d l : List Char}
    (h : ∀ c ∈ d, p c = true) :
    List.dropWhile p (d ++ l) = List.dropWhile p l := by
  induction d with
  | nil => rfl
  | cons a as ih =>
    have ha : p a = true := h a (by simp)
    simp only [List.cons_append, List.dropWhile_cons, ha, if_true]
    exact ih (fun c hc => h c (by simp [hc]))

theorem pyIsSpace_of_isDigit {c : Char} (h : c.isDigit = true) :
    pyIsSpace c = false := by
  cases hpy : pyIsSpace c
  · rfl
  · unfold pyIsSpace at hpy
    simp only [Bool.or_eq_true, beq_iff_eq] at hpy
    rcases hpy with ((((h1 | h1) | h1) | h1) | h1) | h1 <;> subst h1 <;>
      exact absurd h (by decide)

theorem isDigit_ne_lbracket {c : Char} (h : c.isDigit = true) : c ≠ '[' := by
  intro h1
  subst h1
  exact absurd h (by decide)

theorem isDigit_ne_lparen {c : Char} (h : c.isDigit = true) : c ≠ '(' := by
  intro h1
  subst h1
  exact absurd h (by decide)

/-- A matcher that needs a fixed first character finds no match in a
string avoiding that character. -/
theorem countMatches_zero_of_head {m : List Char → Option (List Char)} {b : Char}
    (hm : ∀ (c : Char) (cs : List Char), c ≠ b → m (c :: cs) = none) :
    ∀ {l : List Char}, (∀ c ∈ l, c ≠ b) → countMatches m l = 0 := by
  intro l
  induction l with
  | nil => intro _; rfl
  | cons a as ih =>
    intro h
    rw [countMatches_cons_of_none (hm a as (h a (by simp)))]
    exact ih (fun c hc => h c (by simp [hc]))

theorem matchBracketAt_none {c : Char} (cs : List Char) (h : c ≠ '[') :
    matchBracketAt (c :: cs) = none := by
  unfold matchBracketAt
  rw [show stripLit "[".toList (c :: cs) =
      (if c = '[' then stripLit [] cs else none) from rfl, if_neg h]
  rfl

theorem matchSourceParenAt_none {c : Char} (cs : List Char) (h : c ≠ '(') :
    matchSourceParenAt (c :: cs) = none := by
  unfold matchSourceParenAt
  rw [show stripLit "(Source".toList (c :: cs) =
      (if c = '(' then stripLit "Source".toList cs else none) from rfl, if_neg h]
  rfl

theorem matchDocumentParenAt_none {c : Char} (cs : List Char) (h : c ≠ '(') :
    matchDocumentParenAt (c :: cs) = none := by
  unfold matchDocumentParenAt
  rw [show stripLit "(Document".toList (c :: cs) =
      (if c = '(' then stripLit "Document".toList cs else none) from rfl, if_neg h]
  rfl

theorem matchDocumentAt_none {c : Char} (cs : List Char) (h : c ≠ 'D') :
    matchDocumentAt (c :: cs) = none := by
  unfold matchDocumentAt
  rw [show stripLit "Document".toList (c :: cs) =
      (if c = 'D' then stripLit "ocument".toList cs else none) from rfl, if_neg h]
  rfl

/-- C8 counterexample: the single citation occurrence `"(Document 1)"`
is matched by both the `Document <N>` pattern and the `(Document <N>)`
pattern, so it contributes 2 to `citation_count`, refuting the claim
that each occurrence is matched by at most one of the four patterns. -/
theorem citation_patterns_overlap :
    countMatches matchDocumentAt "(Document 1)".toList = 1 ∧
    countMatches matchBracketAt "(Document 1)".toList = 0 ∧
    countMatches matchSourceParenAt "(Document 1)".toList = 0 ∧
    countMatches matchDocumentParenAt "(Document 1)".toList = 1 ∧
    citationCount "(Document 1)".toList = 2 := by decide

/-- C8 (amended): a citation occurrence can be matched by more than one
pattern: every occurrence of the form `(Document <N>)` (`<N>` a nonempty
digit string) is matched both by `Document <N>` and by `(Document <N>)`
and contributes 2 to `citation_count`, while the other patterns find
nothing in it. -/
theorem parenDocument_double_count (d : List Char) (hd : d ≠ [])
    (hdig : ∀ c ∈ d, c.isDigit = true) :
    citationCount ("(Document ".toList ++ d ++ [')']) = 2 := by
  obtain ⟨c0, d', rfl⟩ := List.exists_cons_of_ne_nil hd
  have hc0 : c0.isDigit = true := hdig c0 (by simp)
  have hd' : ∀ c ∈ d', c.isDigit = true := fun c hc => hdig c (by simp [hc])
  have hdrop : List.dropWhile Char.isDigit (d' ++ [')']) = [')'] := by
    rw [dropWhile_append_of_all hd']
    rfl
  have hdw : List.dropWhile pyIsSpace (c0 :: (d' ++ [')'])) =
      c0 :: (d' ++ [')']) := by
    rw [List.dropWhile_cons, pyIsSpace_of_isDigit hc0]
    simp
  have hsform : "(Document ".toList ++ (c0 :: d') ++ [')'] =
      '(' :: 'D' :: 'o' :: 'c' :: 'u' :: 'm' :: 'e' :: 'n' :: 't' :: ' ' ::
        c0 :: (d' ++ [')']) := rfl
  rw [hsform]
  have hnobr : ∀ c ∈ ('(' :: 'D' :: 'o' :: 'c' :: 'u' :: 'm' :: 'e' :: 'n' ::
      't' :: ' ' :: c0 :: (d' ++ [')'])), c ≠ '[' := by
    intro c hc
    simp only [List.mem_cons, List.mem_append, List.not_mem_nil,
      or_false] at hc
    rcases hc with rfl|rfl|rfl|rfl|rfl|rfl|rfl|rfl|rfl|rfl|rfl|hmd|rfl
    all_goals first
      | decide
      | exact isDigit_ne_lbracket hc0
      | exact isDigit_ne_lbracket (hd' _ hmd)
  have hnopar : ∀ c ∈ ('D' :: 'o' :: 'c' :: 'u' :: 'm' :: 'e' :: 'n' ::
      't' :: ' ' :: c0 :: (d' ++ [')'])), c ≠ '(' := by
    intro c hc
    simp only [List.mem_cons, List.mem_append, List.not_mem_nil,
      or_false] at hc
    rcases hc with rfl|rfl|rfl|rfl|rfl|rfl|rfl|rfl|rfl|rfl|hmd|rfl
    all_goals first
      | decide
      | exact isDigit_ne_lparen hc0
      | exact isDigit_ne_lparen (hd' _ hmd)
  have hdocm : matchDocumentAt ('D' :: 'o' :: 'c' :: 'u' :: 'm' :: 'e' :: 'n' ::
      't' :: ' ' :: c0 :: (d' ++ [')'])) = some [')'] := by
    unfold matchDocumentAt
    rw [show stripLit "Document".toList ('D' :: 'o' :: 'c' :: 'u' :: 'm' :: 'e' ::
        'n' :: 't' :: ' ' :: c0 :: (d' ++ [')'])) =
        some (' ' :: c0 :: (d' ++ [')'])) from rfl, Option.some_bind]
    rw [show spaces1 (' ' :: c0 :: (d' ++ [')'])) =
        some (List.dropWhile pyIsSpace (c0 :: (d' ++ [')']))) from rfl, hdw,
      Option.some_bind]
    rw [show digits1 (c0 :: (d' ++ [')'])) = (if c0.isDigit = true then
        some (List.dropWhile Char.isDigit (d' ++ [')'])) else none) from rfl,
      if_pos hc0, hdrop]
  have hdocpn : matchDocumentParenAt ('(' :: 'D' :: 'o' :: 'c' :: 'u' :: 'm' ::
      'e' :: 'n' :: 't' :: ' ' :: c0 :: (d' ++ [')'])) = some [] := by
    unfold matchDocumentParenAt
    rw [show stripLit "(Document".toList ('(' :: 'D' :: 'o' :: 'c' :: 'u' ::
        'm' :: 'e' :: 'n' :: 't' :: ' ' :: c0 :: (d' ++ [')'])) =
        some (' ' :: c0 :: (d' ++ [')'])) from rfl, Option.some_bind]
    rw [show spaces1 (' ' :: c0 :: (d' ++ [')'])) =
        some (List.dropWhile pyIsSpace (c0 :: (d' ++ [')']))) from rfl, hdw,
      Option.some_bind]
    rw [show digits1 (c0 :: (d' ++ [')'])) = (if c0.isDigit = true then
        some (List.dropWhile Char.isDigit (d' ++ [')'])) else none) from rfl,
      if_pos hc0, hdrop, Option.some_bind]
    rfl
  have h1 : countMatches matchDocumentAt ('(' :: 'D' :: 'o' :: 'c' :: 'u' ::
      'm' :: 'e' :: 'n' :: 't' :: ' ' :: c0 :: (d' ++ [')'])) = 1 := by
    rw [countMatches_cons_of_none (matchDocumentAt_none _ (by decide)),
      countMatches_cons_of_some matchDocumentAt_consumes hdocm,
      show countMatches matchDocumentAt [')'] = 0 from by decide]
  have h2 : countMatches matchBracketAt ('(' :: 'D' :: 'o' :: 'c' :: 'u' ::
      'm' :: 'e' :: 'n' :: 't' :: ' ' :: c0 :: (d' ++ [')'])) = 0 :=
    countMatches_zero_of_head (fun _ cs h => matchBracketAt_none cs h) hnobr
  have h3 : countMatches matchSourceParenAt ('(' :: 'D' :: 'o' :: 'c' :: 'u' ::
      'm' :: 'e' :: 'n' :: 't' :: ' ' :: c0 :: (d' ++ [')'])) = 0 := by
    rw [countMatches_cons_of_none (show matchSourceParenAt ('(' :: 'D' :: 'o' ::
      'c' :: 'u' :: 'm' :: 'e' :: 'n' :: 't' :: ' ' :: c0 :: (d' ++ [')'])) =
      none from rfl)]
    exact countMatches_zero_of_head
      (fun _ cs h => matchSourceParenAt_none cs h) hnopar
  have h4 : countMatches matchDocumentParenAt ('(' :: 'D' :: 'o' :: 'c' :: 'u' ::
      'm' :: 'e' :: 'n' :: 't' :: ' ' :: c0 :: (d' ++ [')'])) = 1 := by
    rw [countMatches_cons_of_some matchDocumentParenAt_consumes hdocpn]
    rfl
  unfold citationCount
  rw [h1, h2, h3, h4]

/-- Witness for C8 (amended) at `<N> = "1"`. -/
theorem parenDocument_double_count_witness :
    citationCount ("(Document ".toList ++ ['1'] ++ [')']) = 2 :=
  parenDocument_double_count ['1'] (by decide) (by decide)
